import Mathlib

/-!
Shallow embedding of the deterministic 2048-style game engine of
ZipperMerge-Ultra (`src/App.tsx`).  Machine numbers are modelled as `Nat`
(values, score, counters) and `Int` (grid coordinates, which the farthest
position search may step outside of).  The transient flags `isNew` and
`justMerged`, optional in the source, are modelled as `Bool` (absent /
`undefined` behaves exactly like `false` everywhere they are read).
`Math.random`-driven choices (spawn cell, spawn value) and the global
`nextId` counter are passed as explicit parameters.
-/

inductive Direction where
  | up
  | down
  | left
  | right
deriving DecidableEq, Repr

structure Tile where
  id : Nat
  value : Nat
  row : Int
  col : Int
  isNew : Bool
  justMerged : Bool
deriving DecidableEq, Repr

structure GameState where
  tiles : List Tile
  score : Nat
  moves : Nat
  comboCount : Nat
  gameOver : Bool
  won : Bool
deriving DecidableEq, Repr

structure GameEngine where
  state : GameState
  history : List GameState
  undosRemaining : Nat
  highScore : Nat
deriving DecidableEq, Repr

/-- The transient occupancy lookup built from the tile collection. -/
abbrev Grid := Int → Int → Option Tile

def createEmptyState : GameState :=
  { tiles := [], score := 0, moves := 0, comboCount := 0, gameOver := false, won := false }

/-- Single-cell update of the occupancy lookup (`grid[r][c] = v`). -/
def gridSet (g : Grid) (r c : Int) (v : Option Tile) : Grid :=
  fun r' c' => if r' = r ∧ c' = c then v else g r' c'

/-- One assignment `grid[tile.row][tile.col] = tile` of `buildGrid`. -/
def placeTile (g : Grid) (t : Tile) : Grid :=
  gridSet g t.row t.col (some t)

/-- `buildGrid`: assign `grid[tile.row][tile.col] = tile` for each tile in order
(later tiles overwrite earlier ones, as in the source's `forEach`). -/
def buildGrid (tiles : List Tile) : Grid :=
  tiles.foldl placeTile (fun _ _ => none)

def getVector (dir : Direction) : Int × Int :=
  match dir with
  | .up => (-1, 0)
  | .down => (1, 0)
  | .left => (0, -1)
  | .right => (0, 1)

def getTraversals (dir : Direction) (size : Int) : List Int × List Int :=
  let rows := (List.range size.toNat).map Int.ofNat
  let cols := (List.range size.toNat).map Int.ofNat
  (if dir = .down then rows.reverse else rows,
   if dir = .right then cols.reverse else cols)

/-- The body of the `while (true)` farthest-position search, with an explicit
recursion budget `fuel`.  The search steps along the direction vector until it
leaves the board (result `(previous, none)`) or hits an occupied cell (result
`(previous, some next)`).  `ffp_fuel_stable` below shows the result does not
depend on the budget once it is at least `size.toNat`, i.e. the source loop
terminates. -/
def ffpAux (v : Int × Int) (grid : Grid) (size : Int) :
    Nat → Int × Int → (Int × Int) × Option (Int × Int)
  | 0, previous => (previous, none)
  | fuel + 1, previous =>
    let next := (previous.1 + v.1, previous.2 + v.2)
    if next.1 < 0 ∨ size ≤ next.1 ∨ next.2 < 0 ∨ size ≤ next.2 then
      (previous, none)
    else if (grid next.1 next.2).isSome then
      (previous, some next)
    else
      ffpAux v grid size fuel next

def findFarthestPosition (position : Int × Int) (v : Int × Int) (grid : Grid) (size : Int) :
    (Int × Int) × Option (Int × Int) :=
  ffpAux v grid size size.toNat position

/-- `tiles.indexOf(x)` followed by `splice(idx, 1)` (no change when absent). -/
def eraseFirst : List Tile → Tile → List Tile
  | [], _ => []
  | t :: ts, a => if t = a then ts else t :: eraseFirst ts a

/-- `tiles.indexOf(old)` followed by `tiles[idx] = new` (no change when absent). -/
def replaceFirst : List Tile → Tile → Tile → List Tile
  | [], _, _ => []
  | t :: ts, old, new => if t = old then new :: ts else t :: replaceFirst ts old new

/-- Threaded state of one `move` call: the authoritative tile collection, the
transient grid, the scalar accumulators and the per-move merged-cells guard. -/
structure MoveCtx where
  tiles : List Tile
  grid : Grid
  score : Nat
  comboCount : Nat
  won : Bool
  mergedPositions : List (Int × Int)
  moved : Bool

/-- The decision the per-cell body of `move` takes at one traversal cell. -/
inductive StepAction where
  | skip
  | mergeInto (tile nextTile : Tile) (next : Int × Int)
  | slide (tile : Tile) (farthest : Int × Int)
deriving DecidableEq, Repr

/-- The branch structure of the per-cell body of `move`: empty cell (`skip`);
blocking tile of equal value whose cell was not merged into this move
(`mergeInto`); otherwise slide to the farthest empty position (`slide`). -/
def stepAction (size : Int) (dir : Direction) (ctx : MoveCtx) (row col : Int) : StepAction :=
  match ctx.grid row col with
  | none => .skip
  | some tile =>
    let positions := findFarthestPosition (row, col) (getVector dir) ctx.grid size
    match positions.2 with
    | some next =>
      match ctx.grid next.1 next.2 with
      | some nextTile =>
        if nextTile.value = tile.value ∧ next ∉ ctx.mergedPositions then
          .mergeInto tile nextTile next
        else
          .slide tile positions.1
      | none => .slide tile positions.1
    | none => .slide tile positions.1

/-- `moveTile`: clear the tile's current grid cell, reposition it, and place it
at the new cell, updating the authoritative collection accordingly. -/
def moveTile (tile : Tile) (position : Int × Int) (tiles : List Tile) (grid : Grid) :
    List Tile × Grid :=
  let movedTile : Tile := { tile with row := position.1, col := position.2 }
  (replaceFirst tiles tile movedTile,
   gridSet (gridSet grid tile.row tile.col none) position.1 position.2 (some movedTile))

/-- Apply one `StepAction` to the move context (the mutation part of the
per-cell body of `move`). -/
def applyAction (ctx : MoveCtx) (row col : Int) : StepAction → MoveCtx
  | .skip => ctx
  | .mergeInto tile nextTile next =>
    let merged : Tile :=
      { id := nextTile.id
        value := tile.value * 2
        row := next.1
        col := next.2
        isNew := false
        justMerged := true }
    { tiles := replaceFirst (eraseFirst ctx.tiles tile) nextTile merged
      grid := gridSet ctx.grid next.1 next.2 (some merged)
      score := ctx.score + merged.value
      comboCount := ctx.comboCount + 1
      won := ctx.won || decide (merged.value = 2048)
      mergedPositions := next :: ctx.mergedPositions
      moved := true }
  | .slide tile farthest =>
    let tg := moveTile tile farthest ctx.tiles ctx.grid
    { ctx with
      tiles := tg.1
      grid := tg.2
      moved := ctx.moved || decide (¬(farthest.1 = row ∧ farthest.2 = col)) }

def moveStep (size : Int) (dir : Direction) (ctx : MoveCtx) (row col : Int) : MoveCtx :=
  applyAction ctx row col (stepAction size dir ctx row col)

/-- The nested `for (row of traversals.rows) for (col of traversals.cols)` loop,
flattened into one list of cells. -/
def traversalCells (dir : Direction) (size : Int) : List (Int × Int) :=
  ((getTraversals dir size).1).flatMap fun r => ((getTraversals dir size).2).map fun c => (r, c)

def moveLoop (size : Int) (dir : Direction) : List (Int × Int) → MoveCtx → MoveCtx
  | [], ctx => ctx
  | p :: rest, ctx => moveLoop size dir rest (moveStep size dir ctx p.1 p.2)

def clearTileFlags (t : Tile) : Tile :=
  { t with isNew := false, justMerged := false }

/-- Start of a `move` call: clear the transient flags of every tile, rebuild the
grid, reset `comboCount` to 0, empty the merged-cells guard. -/
def initCtx (st : GameState) : MoveCtx :=
  let tiles := st.tiles.map clearTileFlags
  { tiles := tiles
    grid := buildGrid tiles
    score := st.score
    comboCount := 0
    won := st.won
    mergedPositions := []
    moved := false }

/-- The traversal phase of `move` (everything before the `if (moved)` block). -/
def moveCore (st : GameState) (dir : Direction) (size : Int) : MoveCtx :=
  moveLoop size dir (traversalCells dir size) (initCtx st)

/-- Empty cells in row-major scan order, as collected by `spawnTile`. -/
def emptyCellsOf (st : GameState) (size : Int) : List (Int × Int) :=
  (List.range size.toNat).flatMap fun r =>
    (List.range size.toNat).filterMap fun c =>
      if st.tiles.any (fun t => t.row = (r : Int) ∧ t.col = (c : Int)) then none
      else some ((r : Int), (c : Int))

/-- `spawnTile`: place one new tile on a random empty cell (no-op when the board
is full).  `nid` stands in for the global `nextId` counter, `pick` for
`Math.floor(Math.random() * emptyCells.length)` (reduced mod the number of
empty cells), and `two` for `Math.random() < 0.9`. -/
def spawnTile (st : GameState) (size : Int) (nid : Nat) (pick : Nat) (two : Bool) : GameState :=
  let emptyCells := emptyCellsOf st size
  if h : emptyCells.length = 0 then st
  else
    let cell := emptyCells.get ⟨pick % emptyCells.length, Nat.mod_lt _ (Nat.pos_of_ne_zero h)⟩
    { st with tiles := st.tiles ++
        [{ id := nid
           value := if two then 2 else 4
           row := cell.1
           col := cell.2
           isNew := true
           justMerged := false }] }

/-- `checkAvailableMoves`: true when some cell is empty or some tile has a
right or down neighbour of equal value. -/
def checkAvailableMoves (st : GameState) (size : Int) : Bool :=
  let grid := buildGrid st.tiles
  (List.range size.toNat).any fun ri =>
    (List.range size.toNat).any fun ci =>
      let r : Int := ri
      let c : Int := ci
      match grid r c with
      | none => true
      | some tile =>
        (decide (c < size - 1) && ((grid r (c + 1)).map Tile.value == some tile.value)) ||
        (decide (r < size - 1) && ((grid (r + 1) c).map Tile.value == some tile.value))

/-- `move`: run the traversal phase; on success increment the move counter,
spawn a tile, update the high score and evaluate the loss condition.  Returns
the updated engine together with the `moved` flag.  (The statistics commit on
game over writes external storage only and is omitted.) -/
def move (e : GameEngine) (dir : Direction) (size : Int) (nid : Nat) (pick : Nat) (two : Bool) :
    GameEngine × Bool :=
  let ctx := moveCore e.state dir size
  let st1 : GameState :=
    { tiles := ctx.tiles
      score := ctx.score
      moves := e.state.moves
      comboCount := ctx.comboCount
      gameOver := e.state.gameOver
      won := ctx.won }
  if ctx.moved then
    let st2 := spawnTile { st1 with moves := st1.moves + 1 } size nid pick two
    let hs := if e.highScore < st2.score then st2.score else e.highScore
    let st3 := if checkAvailableMoves st2 size then st2 else { st2 with gameOver := true }
    ({ e with state := st3, highScore := hs }, true)
  else
    ({ e with state := st1 }, false)

/-- `handleMove`: reject commands once the game is over; deep-copy the prior
state; on a successful move push the snapshot onto the bounded history
(capacity 10, oldest evicted). -/
def handleMove (e : GameEngine) (dir : Direction) (size : Int) (nid : Nat) (pick : Nat)
    (two : Bool) : GameEngine :=
  if e.state.gameOver then e
  else
    let oldState := e.state
    let res := move e dir size nid pick two
    if res.2 then
      let h1 := res.1.history ++ [oldState]
      let h2 := if 10 < h1.length then h1.drop 1 else h1
      { res.1 with history := h2 }
    else res.1

/-- `handleUndo`: when undos remain and the history is non-empty, pop the most
recent snapshot into the current state and consume one undo. -/
def handleUndo (e : GameEngine) : GameEngine :=
  if 0 < e.undosRemaining then
    match e.history.getLast? with
    | some prev =>
      { e with
        state := prev
        history := e.history.dropLast
        undosRemaining := e.undosRemaining - 1 }
    | none => e
  else e

/-- `initGame`: fresh engine with two tiles spawned (the global `nextId` is
reset to 0, so the seeds get ids 0 and 1), empty history and 3 undos. -/
def initGame (size : Int) (hs : Nat) (pick1 pick2 : Nat) (two1 two2 : Bool) : GameEngine :=
  let st1 := spawnTile createEmptyState size 0 pick1 two1
  let st2 := spawnTile st1 size 1 pick2 two2
  { state := st2, history := [], undosRemaining := 3, highScore := hs }

/-- Engine configurations reachable from a fresh engine by any sequence of
move, spawn and undo operations (with arbitrary randomness). -/
inductive Reachable (size : Int) : GameEngine → Prop where
  | init (hs pick1 pick2 : Nat) (two1 two2 : Bool) :
      Reachable size (initGame size hs pick1 pick2 two1 two2)
  | mv (e : GameEngine) (dir : Direction) (nid pick : Nat) (two : Bool) :
      Reachable size e → Reachable size (handleMove e dir size nid pick two)
  | sp (e : GameEngine) (nid pick : Nat) (two : Bool) :
      Reachable size e →
      Reachable size { e with state := spawnTile e.state size nid pick two }
  | undo (e : GameEngine) : Reachable size e → Reachable size (handleUndo e)

/-! ### Specification vocabulary -/

/-- Total mass: the sum of the values of the tiles in a collection. -/
def sumValues (tiles : List Tile) : Nat :=
  (tiles.map Tile.value).sum

/-- Two tiles do not occupy the same cell. -/
def posNe (a b : Tile) : Prop :=
  ¬(a.row = b.row ∧ a.col = b.col)

/-- No two tiles of the collection occupy the same cell. -/
def PosOK (tiles : List Tile) : Prop :=
  tiles.Pairwise posNe

/-- Every grid entry records the cell it sits at. -/
def GridCons (g : Grid) : Prop :=
  ∀ r c t, g r c = some t → t.row = r ∧ t.col = c

/-- Every tile of the authoritative collection is present in the grid at its
own cell. -/
def TilesInGrid (tiles : List Tile) (g : Grid) : Prop :=
  ∀ t ∈ tiles, g t.row t.col = some t

/-- Invariant carried through the traversal loop of `move`. -/
def CtxOK (ctx : MoveCtx) : Prop :=
  PosOK ctx.tiles ∧ GridCons ctx.grid ∧ TilesInGrid ctx.tiles ctx.grid

/-- A cell is on the `size` × `size` board. -/
def inB (size : Int) (p : Int × Int) : Prop :=
  0 ≤ p.1 ∧ p.1 < size ∧ 0 ≤ p.2 ∧ p.2 < size

/-- Every cell of the board holds a tile. -/
def gridFull (g : Grid) (size : Int) : Prop :=
  ∀ r c, 0 ≤ r → r < size → 0 ≤ c → c < size → (g r c).isSome

/-- No two horizontally or vertically adjacent cells hold tiles of equal
value. -/
def noAdjEq (g : Grid) (size : Int) : Prop :=
  (∀ r c t u, 0 ≤ r → r < size → 0 ≤ c → c + 1 < size →
    g r c = some t → g r (c + 1) = some u → t.value ≠ u.value) ∧
  (∀ r c t u, 0 ≤ r → r + 1 < size → 0 ≤ c → c < size →
    g r c = some t → g (r + 1) c = some u → t.value ≠ u.value)

/-- The values of the merged tiles a single traversal step creates (empty
except on a merge, where it is the doubled value). -/
def mergeLogStep (size : Int) (dir : Direction) (ctx : MoveCtx) (row col : Int) : List Nat :=
  match stepAction size dir ctx row col with
  | .mergeInto tile _ _ => [tile.value * 2]
  | _ => []

/-- The values of all merged tiles created along a traversal, in order. -/
def moveLoopLog (size : Int) (dir : Direction) : List (Int × Int) → MoveCtx → List Nat
  | [], _ => []
  | p :: rest, ctx =>
    mergeLogStep size dir ctx p.1 p.2 ++
      moveLoopLog size dir rest (moveStep size dir ctx p.1 p.2)

/-- Number of steps the farthest-position search needs before it reaches the
board edge when walking from `p` in direction `dir`. -/
def ffpFuelNeed (dir : Direction) (size : Int) (p : Int × Int) : Nat :=
  match dir with
  | .up => (p.1 + 1).toNat
  | .down => (size - p.1).toNat
  | .left => (p.2 + 1).toNat
  | .right => (size - p.2).toNat

/-- Engine-level invariant: the current state and every history snapshot have
position-distinct tile collections. -/
def EngOK (e : GameEngine) : Prop :=
  PosOK e.state.tiles ∧ ∀ s ∈ e.history, PosOK s.tiles

/-! ### Concrete example states -/

/-- A tile with cleared transient flags, for building example boards. -/
def mkTile (i : Nat) (r c : Int) (v : Nat) : Tile :=
  { id := i, value := v, row := r, col := c, isNew := false, justMerged := false }

/-- Row of four value-2 tiles at (0,0)–(0,3) (the spec's triple-merge
scenario). -/
def exState4x2 : GameState :=
  { tiles := [mkTile 0 0 0 2, mkTile 1 0 1 2, mkTile 2 0 2 2, mkTile 3 0 3 2]
    score := 0
    moves := 0
    comboCount := 0
    gameOver := false
    won := false }

/-- Two value-2 tiles at (0,0) and (0,1). -/
def exStatePair : GameState :=
  { tiles := [mkTile 0 0 0 2, mkTile 1 0 1 2]
    score := 0
    moves := 0
    comboCount := 0
    gameOver := false
    won := false }

def exEnginePair : GameEngine :=
  { state := exStatePair, history := [], undosRemaining := 2, highScore := 0 }

/-- A single just-spawned tile at (0,0); moving left is rejected. -/
def exStateStuck : GameState :=
  { tiles := [{ id := 0, value := 2, row := 0, col := 0, isNew := true, justMerged := false }]
    score := 7
    moves := 3
    comboCount := 5
    gameOver := false
    won := false }

def exEngineStuck : GameEngine :=
  { state := exStateStuck, history := [], undosRemaining := 3, highScore := 7 }

/-- A full 4×4 board with no adjacent equal values: no direction can move. -/
def exStateBlocked : GameState :=
  { tiles := [mkTile 0 0 0 2, mkTile 1 0 1 4, mkTile 2 0 2 2, mkTile 3 0 3 4,
              mkTile 4 1 0 4, mkTile 5 1 1 2, mkTile 6 1 2 4, mkTile 7 1 3 2,
              mkTile 8 2 0 2, mkTile 9 2 1 4, mkTile 10 2 2 2, mkTile 11 2 3 4,
              mkTile 12 3 0 4, mkTile 13 3 1 2, mkTile 14 3 2 4, mkTile 15 3 3 2]
    score := 0
    moves := 0
    comboCount := 0
    gameOver := false
    won := false }

def exEngineBlocked : GameEngine :=
  { state := exStateBlocked, history := [], undosRemaining := 3, highScore := 0 }

/-- 15 tiles; moving right slides the bottom row and the forced spawn
(value 4 at (3,0)) fills the board with no adjacent equal values, so the move
sets `gameOver`. -/
def exStateAlmostOver : GameState :=
  { tiles := [mkTile 0 0 0 2, mkTile 1 0 1 4, mkTile 2 0 2 2, mkTile 3 0 3 4,
              mkTile 4 1 0 4, mkTile 5 1 1 2, mkTile 6 1 2 4, mkTile 7 1 3 2,
              mkTile 8 2 0 2, mkTile 9 2 1 4, mkTile 10 2 2 2, mkTile 11 2 3 4,
              mkTile 12 3 0 8, mkTile 13 3 1 16, mkTile 14 3 2 8]
    score := 0
    moves := 0
    comboCount := 0
    gameOver := false
    won := false }

def exEngineAlmostOver : GameEngine :=
  { state := exStateAlmostOver, history := [], undosRemaining := 3, highScore := 0 }

/-- Two value-1024 tiles; moving left merges them into 2048 and wins. -/
def exStateAlmostWon : GameState :=
  { tiles := [mkTile 0 0 0 1024, mkTile 1 0 1 1024]
    score := 0
    moves := 0
    comboCount := 0
    gameOver := false
    won := false }

def exEngineAlmostWon : GameEngine :=
  { state := exStateAlmostWon, history := [], undosRemaining := 3, highScore := 0 }

/-- Engine that has already won, for exercising `won` monotonicity. -/
def exEngineWon : GameEngine :=
  { state := { exStatePair with won := true }, history := [], undosRemaining := 3, highScore := 0 }

/-- Engine whose game is over, for exercising `gameOver` monotonicity. -/
def exEngineOverAlready : GameEngine :=
  { state := { exStateBlocked with gameOver := true }, history := [], undosRemaining := 3
    highScore := 0 }

/-! ### List helper lemmas -/

theorem replaceFirst_self (l : List Tile) (a : Tile) : replaceFirst l a a = l := by
  induction l with
  | nil => rfl
  | cons t ts ih =>
    by_cases h : t = a <;> simp [replaceFirst, h, ih]

theorem replaceFirst_length (l : List Tile) (a b : Tile) :
    (replaceFirst l a b).length = l.length := by
  induction l with
  | nil => rfl
  | cons t ts ih =>
    by_cases h : t = a <;> simp [replaceFirst, h, ih]

theorem replaceFirst_not_mem {l : List Tile} {a : Tile} (h : a ∉ l) (b : Tile) :
    replaceFirst l a b = l := by
  induction l with
  | nil => rfl
  | cons t ts ih =>
    simp only [List.mem_cons, not_or] at h
    simp [replaceFirst, Ne.symm h.1, ih h.2]

theorem eraseFirst_not_mem {l : List Tile} {a : Tile} (h : a ∉ l) : eraseFirst l a = l := by
  induction l with
  | nil => rfl
  | cons t ts ih =>
    simp only [List.mem_cons, not_or] at h
    simp [eraseFirst, Ne.symm h.1, ih h.2]

theorem eraseFirst_length {l : List Tile} {a : Tile} (h : a ∈ l) :
    (eraseFirst l a).length + 1 = l.length := by
  induction l with
  | nil => cases h
  | cons t ts ih =>
    by_cases ht : t = a
    · simp [eraseFirst, ht]
    · rcases List.mem_cons.mp h with h1 | h2
      · exact absurd h1.symm ht
      · simp [eraseFirst, ht, ih h2]

theorem sumValues_cons (t : Tile) (ts : List Tile) :
    sumValues (t :: ts) = t.value + sumValues ts := by
  simp [sumValues]

theorem sumValues_eraseFirst {l : List Tile} {a : Tile} (h : a ∈ l) :
    sumValues (eraseFirst l a) + a.value = sumValues l := by
  induction l with
  | nil => cases h
  | cons t ts ih =>
    by_cases ht : t = a
    · simp [eraseFirst, ht, sumValues_cons, Nat.add_comm]
    · rcases List.mem_cons.mp h with h1 | h2
      · exact absurd h1.symm ht
      · simp only [eraseFirst, if_neg ht, sumValues_cons]
        have := ih h2
        omega

theorem sumValues_replaceFirst {l : List Tile} {a : Tile} (h : a ∈ l) (b : Tile) :
    sumValues (replaceFirst l a b) + a.value = sumValues l + b.value := by
  induction l with
  | nil => cases h
  | cons t ts ih =>
    by_cases ht : t = a
    · subst ht
      simp [replaceFirst, sumValues_cons]
      omega
    · rcases List.mem_cons.mp h with h1 | h2
      · exact absurd h1.symm ht
      · simp only [replaceFirst, if_neg ht, sumValues_cons]
        have := ih h2
        omega

theorem eraseFirst_sublist (l : List Tile) (a : Tile) : (eraseFirst l a).Sublist l := by
  induction l with
  | nil => exact List.Sublist.refl _
  | cons t ts ih =>
    by_cases ht : t = a
    · simp only [eraseFirst, if_pos ht]
      exact List.sublist_cons_self t ts
    · simp only [eraseFirst, if_neg ht]
      exact ih.cons₂ t

theorem mem_eraseFirst {l : List Tile} {a b : Tile} (h : b ∈ eraseFirst l a) : b ∈ l :=
  (eraseFirst_sublist l a).mem h

theorem pairwise_eraseFirst {R : Tile → Tile → Prop} {l : List Tile} {a : Tile}
    (h : l.Pairwise R) : (eraseFirst l a).Pairwise R :=
  h.sublist (eraseFirst_sublist l a)

theorem mem_replaceFirst {l : List Tile} {a b x : Tile} (h : x ∈ replaceFirst l a b) :
    x = b ∨ x ∈ l := by
  induction l with
  | nil => cases h
  | cons t ts ih =>
    by_cases ht : t = a
    · simp only [replaceFirst, if_pos ht, List.mem_cons] at h
      rcases h with h | h
      · exact .inl h
      · exact .inr (List.mem_cons_of_mem _ h)
    · simp only [replaceFirst, if_neg ht, List.mem_cons] at h
      rcases h with h | h
      · exact .inr (h ▸ List.mem_cons_self t ts)
      · rcases ih h with h' | h'
        · exact .inl h'
        · exact .inr (List.mem_cons_of_mem _ h')

theorem pairwise_replaceFirst {l : List Tile} {a b : Tile}
    (h : l.Pairwise posNe) (hb : ∀ x ∈ l, x ≠ a → posNe x b ∧ posNe b x) :
    (replaceFirst l a b).Pairwise posNe := by
  induction l with
  | nil => exact List.Pairwise.nil
  | cons t ts ih =>
    rcases List.pairwise_cons.mp h with ⟨hhead, htail⟩
    by_cases ht : t = a
    · simp only [replaceFirst, if_pos ht]
      refine List.pairwise_cons.mpr ⟨?_, htail⟩
      intro x hx
      by_cases hxa : x = a
      · exfalso
        apply hhead x hx
        subst ht
        subst hxa
        exact ⟨rfl, rfl⟩
      · exact (hb x (List.mem_cons_of_mem _ hx) hxa).2
    · simp only [replaceFirst, if_neg ht]
      refine List.pairwise_cons.mpr ⟨?_, ?_⟩
      · intro x hx
        rcases mem_replaceFirst hx with h' | h'
        · subst h'
          exact (hb t (List.mem_cons_self t ts) ht).1
        · exact hhead x h'
      · exact ih htail fun x hx hxa => hb x (List.mem_cons_of_mem _ hx) hxa

/-! ### Grid helper lemmas -/

theorem gridSet_at (g : Grid) (r c : Int) (v : Option Tile) : gridSet g r c v r c = v := by
  simp [gridSet]

theorem gridSet_ne (g : Grid) (r c : Int) (v : Option Tile) {r' c' : Int}
    (h : ¬(r' = r ∧ c' = c)) : gridSet g r c v r' c' = g r' c' := by
  simp [gridSet, h]

theorem gridSet_restore {g : Grid} {r c : Int} {t : Tile} (h : g r c = some t) :
    gridSet (gridSet g r c none) r c (some t) = g := by
  funext r' c'
  by_cases hrc : r' = r ∧ c' = c
  · rcases hrc with ⟨rfl, rfl⟩
    simp [gridSet, h]
  · simp [gridSet, hrc]

theorem foldl_placeTile_gridCons {g : Grid} (hg : GridCons g) (ts : List Tile) :
    GridCons (ts.foldl placeTile g) := by
  induction ts generalizing g with
  | nil => exact hg
  | cons t ts ih =>
    rw [List.foldl_cons]
    refine ih ?_
    intro r c u hu
    by_cases h : r = t.row ∧ c = t.col
    · rw [placeTile, gridSet] at hu
      rw [if_pos h] at hu
      cases hu
      exact ⟨h.1.symm, h.2.symm⟩
    · rw [placeTile, gridSet] at hu
      rw [if_neg h] at hu
      exact hg r c u hu

theorem buildGrid_gridCons (tiles : List Tile) : GridCons (buildGrid tiles) :=
  foldl_placeTile_gridCons (fun _ _ _ h => by cases h) tiles

theorem foldl_placeTile_untouched {ts : List Tile} {r c : Int}
    (h : ∀ t ∈ ts, ¬(t.row = r ∧ t.col = c)) (g : Grid) :
    (ts.foldl placeTile g) r c = g r c := by
  induction ts generalizing g with
  | nil => rfl
  | cons t ts ih =>
    rw [List.foldl_cons, ih (fun u hu => h u (List.mem_cons_of_mem _ hu))]
    have ht := h t (List.mem_cons_self t ts)
    rw [placeTile, gridSet, if_neg (fun hc => ht ⟨hc.1.symm, hc.2.symm⟩)]

theorem foldl_placeTile_self {ts : List Tile} (h : ts.Pairwise posNe) (g : Grid) :
    ∀ t ∈ ts, (ts.foldl placeTile g) t.row t.col = some t := by
  induction ts generalizing g with
  | nil => intro t ht; cases ht
  | cons t ts ih =>
    intro u hu
    rcases List.mem_cons.mp hu with rfl | hu'
    · rw [List.foldl_cons]
      rw [foldl_placeTile_untouched (fun x hx => ?_) _]
      · rw [placeTile, gridSet, if_pos ⟨rfl, rfl⟩]
      · have := (List.pairwise_cons.mp h).1 x hx
        exact fun hc => this ⟨hc.1.symm, hc.2.symm⟩
    · rw [List.foldl_cons]
      exact ih (List.pairwise_cons.mp h).2 _ u hu'

theorem buildGrid_tilesInGrid {tiles : List Tile} (h : PosOK tiles) :
    TilesInGrid tiles (buildGrid tiles) :=
  fun t ht => foldl_placeTile_self h _ t ht

/-! ### Farthest-position search lemmas -/

theorem ffpAux_farthest (v : Int × Int) (g : Grid) (size : Int) :
    ∀ fuel p, (ffpAux v g size fuel p).1 = p ∨
      g (ffpAux v g size fuel p).1.1 (ffpAux v g size fuel p).1.2 = none := by
  intro fuel
  induction fuel with
  | zero => intro p; exact .inl rfl
  | succ n ih =>
    intro p
    by_cases hb : p.1 + v.1 < 0 ∨ size ≤ p.1 + v.1 ∨ p.2 + v.2 < 0 ∨ size ≤ p.2 + v.2
    · simp only [ffpAux, if_pos hb]
      exact .inl trivial
    · by_cases ho : (g (p.1 + v.1) (p.2 + v.2)).isSome
      · simp only [ffpAux, if_neg hb, if_pos ho]
        exact .inl trivial
      · simp only [ffpAux, if_neg hb, if_neg ho]
        rcases ih (p.1 + v.1, p.2 + v.2) with h | h
        · right
          rw [h]
          exact Option.not_isSome_iff_eq_none.mp ho
        · exact .inr h

theorem ffpAux_fuel_stable (dir : Direction) (g : Grid) (size : Int) :
    ∀ n fuel p, inB size p → ffpFuelNeed dir size p ≤ n → n ≤ fuel →
      ffpAux (getVector dir) g size fuel p = ffpAux (getVector dir) g size n p := by
  intro n
  induction n with
  | zero =>
    intro fuel p hp hneed _
    exfalso
    rcases hp with ⟨h1, h2, h3, h4⟩
    cases dir <;> simp [ffpFuelNeed] at hneed <;> omega
  | succ n ih =>
    intro fuel p hp hneed hfuel
    obtain ⟨f, rfl⟩ : ∃ f, fuel = f + 1 := ⟨fuel - 1, by omega⟩
    set v := getVector dir with hv
    by_cases hb : p.1 + v.1 < 0 ∨ size ≤ p.1 + v.1 ∨ p.2 + v.2 < 0 ∨ size ≤ p.2 + v.2
    · simp only [ffpAux, if_pos hb]
    · by_cases ho : (g (p.1 + v.1) (p.2 + v.2)).isSome
      · simp only [ffpAux, if_neg hb, if_pos ho]
      · simp only [ffpAux, if_neg hb, if_neg ho]
        push_neg at hb
        refine ih f (p.1 + v.1, p.2 + v.2) ⟨hb.1, hb.2.1, hb.2.2.1, hb.2.2.2⟩ ?_ (by omega)
        rcases hp with ⟨h1, h2, h3, h4⟩
        cases dir <;> simp [ffpFuelNeed, getVector, hv] at hneed hb ⊢ <;> omega
/-! ### Position-distinctness helpers -/

theorem posNe_symm {a b : Tile} (h : posNe a b) : posNe b a :=
  fun hc => h ⟨hc.1.symm, hc.2.symm⟩

theorem posOK_nodup {l : List Tile} (h : PosOK l) : l.Nodup :=
  h.imp fun hab => fun he => hab (he ▸ ⟨rfl, rfl⟩)

theorem mem_replaceFirst_nodup {a b : Tile} {l : List Tile} :
    l.Nodup → ∀ {x : Tile}, x ∈ replaceFirst l a b → x = b ∨ (x ∈ l ∧ x ≠ a) := by
  induction l with
  | nil => intro _ x h; cases h
  | cons t ts ih =>
    intro hl x h
    rcases List.nodup_cons.mp hl with ⟨hta, hts⟩
    by_cases ht : t = a
    · subst ht
      simp only [replaceFirst, if_pos rfl, ite_true, eq_self_iff_true, List.mem_cons] at h
      rcases h with h1 | h1
      · exact .inl h1
      · exact .inr ⟨List.mem_cons_of_mem _ h1, fun he => hta (he ▸ h1)⟩
    · simp only [replaceFirst, if_neg ht, List.mem_cons] at h
      rcases h with h1 | h1
      · exact .inr ⟨h1 ▸ List.mem_cons_self t ts, h1 ▸ ht⟩
      · rcases ih hts h1 with h2 | h2
        · exact .inl h2
        · exact .inr ⟨List.mem_cons_of_mem _ h2.1, h2.2⟩

/-! ### Step branch analysis -/

theorem stepAction_spec (size : Int) (dir : Direction) (ctx : MoveCtx) (row col : Int) :
    (ctx.grid row col = none ∧ stepAction size dir ctx row col = .skip) ∨
    (∃ tile next nextTile,
      ctx.grid row col = some tile ∧
      (findFarthestPosition (row, col) (getVector dir) ctx.grid size).2 = some next ∧
      ctx.grid next.1 next.2 = some nextTile ∧
      nextTile.value = tile.value ∧ next ∉ ctx.mergedPositions ∧
      stepAction size dir ctx row col = .mergeInto tile nextTile next) ∨
    (∃ tile,
      ctx.grid row col = some tile ∧
      stepAction size dir ctx row col =
        .slide tile (findFarthestPosition (row, col) (getVector dir) ctx.grid size).1) := by
  rcases hg : ctx.grid row col with _ | tile
  · left
    refine ⟨rfl, ?_⟩
    simp only [stepAction, hg]
  · rcases hp : (findFarthestPosition (row, col) (getVector dir) ctx.grid size).2 with _ | next
    · right; right
      refine ⟨tile, rfl, ?_⟩
      simp only [stepAction, hg, hp]
    · rcases hn : ctx.grid next.1 next.2 with _ | nextTile
      · right; right
        refine ⟨tile, rfl, ?_⟩
        simp only [stepAction, hg, hp, hn]
      · by_cases hc : nextTile.value = tile.value ∧ next ∉ ctx.mergedPositions
        · right; left
          refine ⟨tile, next, nextTile, rfl, rfl, hn, hc.1, hc.2, ?_⟩
          simp only [stepAction, hg, hp, hn, if_pos hc]
        · right; right
          refine ⟨tile, rfl, ?_⟩
          simp only [stepAction, hg, hp, hn, if_neg hc]

/-! ### Step invariant preservation -/

theorem gridCons_set_some {g : Grid} (hg : GridCons g) {t : Tile} {r c : Int}
    (hr : t.row = r) (hc : t.col = c) : GridCons (gridSet g r c (some t)) := by
  intro r' c' u hu
  by_cases h : r' = r ∧ c' = c
  · rw [gridSet, if_pos h] at hu
    cases hu
    exact ⟨hr.trans h.1.symm, hc.trans h.2.symm⟩
  · rw [gridSet, if_neg h] at hu
    exact hg r' c' u hu

theorem gridCons_set_none {g : Grid} (hg : GridCons g) {r c : Int} :
    GridCons (gridSet g r c none) := by
  intro r' c' u hu
  by_cases h : r' = r ∧ c' = c
  · rw [gridSet, if_pos h] at hu
    cases hu
  · rw [gridSet, if_neg h] at hu
    exact hg r' c' u hu

theorem moveStep_gridCons {size : Int} {dir : Direction} {ctx : MoveCtx} {row col : Int}
    (hg : GridCons ctx.grid) : GridCons (moveStep size dir ctx row col).grid := by
  rcases stepAction_spec size dir ctx row col with ⟨_, ha⟩ |
    ⟨t, nx, nt, _, _, _, _, _, ha⟩ | ⟨t, _, ha⟩
  · rw [moveStep, ha]
    exact hg
  · rw [moveStep, ha]
    exact gridCons_set_some hg rfl rfl
  · rw [moveStep, ha]
    exact gridCons_set_some (gridCons_set_none hg) rfl rfl

theorem moveStep_moved_mono {size : Int} {dir : Direction} {ctx : MoveCtx} {row col : Int}
    (h : ctx.moved = true) : (moveStep size dir ctx row col).moved = true := by
  rcases stepAction_spec size dir ctx row col with ⟨_, ha⟩ |
    ⟨t, nx, nt, _, _, _, _, _, ha⟩ | ⟨t, _, ha⟩
  · rw [moveStep, ha]
    exact h
  · rw [moveStep, ha]
    rfl
  · rw [moveStep, ha]
    simp [applyAction, moveTile, h]

theorem moveLoop_moved_mono {size : Int} {dir : Direction} :
    ∀ (cs : List (Int × Int)) (ctx : MoveCtx), ctx.moved = true →
      (moveLoop size dir cs ctx).moved = true := by
  intro cs
  induction cs with
  | nil => intro ctx h; exact h
  | cons p rest ih =>
    intro ctx h
    exact ih _ (moveStep_moved_mono h)

theorem moveStep_noop {size : Int} {dir : Direction} {ctx : MoveCtx} {row col : Int}
    (hg : GridCons ctx.grid) (h : (moveStep size dir ctx row col).moved = false) :
    moveStep size dir ctx row col = ctx := by
  rcases stepAction_spec size dir ctx row col with ⟨_, ha⟩ |
    ⟨t, nx, nt, _, _, _, _, _, ha⟩ | ⟨t, hgt, ha⟩
  · rw [moveStep, ha]
    rfl
  · rw [moveStep, ha] at h
    cases h
  · rw [moveStep, ha] at h ⊢
    simp only [applyAction, moveTile, Bool.or_eq_false_iff, decide_eq_false_iff_not,
      not_not] at h
    rcases h with ⟨hmoved, hf1, hf2⟩
    obtain ⟨hr, hc⟩ := hg row col t hgt
    have hmt : ({ t with
        row := (findFarthestPosition (row, col) (getVector dir) ctx.grid size).1.1
        col := (findFarthestPosition (row, col) (getVector dir) ctx.grid size).1.2 } : Tile)
        = t := by
      rw [hf1, hf2, ← hr, ← hc]
    obtain ⟨ctiles, cgrid, cscore, ccombo, cwon, cmerged, cmoved⟩ := ctx
    simp only [applyAction, moveTile, MoveCtx.mk.injEq]
    refine ⟨?_, ?_, trivial, trivial, trivial, trivial, ?_⟩
    · rw [hmt]
      exact replaceFirst_self _ _
    · rw [hmt, hf1, hf2, hr, hc]
      exact gridSet_restore hgt
    · rw [hf1, hf2]
      simp [hmoved]

theorem findFarthest_cases (v : Int × Int) (g : Grid) (size : Int) (p : Int × Int) :
    (findFarthestPosition p v g size).1 = p ∨
      g (findFarthestPosition p v g size).1.1 (findFarthestPosition p v g size).1.2 = none :=
  ffpAux_farthest v g size size.toNat p

theorem moveStep_ctxOK {size : Int} {dir : Direction} {ctx : MoveCtx} {row col : Int}
    (h : CtxOK ctx) : CtxOK (moveStep size dir ctx row col) := by
  obtain ⟨hpos, hcons, hmem⟩ := h
  rcases stepAction_spec size dir ctx row col with ⟨hg, ha⟩ |
    ⟨t, nx, nt, hgt, hffp, hgn, hval, hnm, ha⟩ | ⟨t, hgt, ha⟩
  · rw [moveStep, ha]
    exact ⟨hpos, hcons, hmem⟩
  · -- merge branch
    rw [moveStep, ha]
    have key : ∀ x ∈ ctx.tiles, x.row = nx.1 → x.col = nx.2 → x = nt := by
      intro x hx hxr hxc
      have hx' := hmem x hx
      rw [hxr, hxc, hgn] at hx'
      exact Option.some_injective _ hx'.symm
    refine ⟨?_, ?_, ?_⟩
    · show PosOK (replaceFirst (eraseFirst ctx.tiles t) nt
        { id := nt.id, value := t.value * 2, row := nx.1, col := nx.2,
          isNew := false, justMerged := true })
      refine pairwise_replaceFirst (pairwise_eraseFirst hpos) ?_
      intro x hx hxn
      have hxc : x ∈ ctx.tiles := mem_eraseFirst hx
      constructor
      · intro hcpos
        exact hxn (key x hxc hcpos.1 hcpos.2)
      · intro hcpos
        exact hxn (key x hxc hcpos.1.symm hcpos.2.symm)
    · show GridCons (gridSet ctx.grid nx.1 nx.2 (some _))
      exact gridCons_set_some hcons rfl rfl
    · intro u hu
      have hnodup : (eraseFirst ctx.tiles t).Nodup :=
        posOK_nodup (pairwise_eraseFirst hpos)
      rcases mem_replaceFirst_nodup hnodup hu with hum | ⟨huE, hune⟩
      · subst hum
        show gridSet ctx.grid nx.1 nx.2 _ nx.1 nx.2 = _
        exact gridSet_at _ _ _ _
      · have huc : u ∈ ctx.tiles := mem_eraseFirst huE
        have hup : ¬(u.row = nx.1 ∧ u.col = nx.2) := by
          intro hcpos
          exact hune (key u huc hcpos.1 hcpos.2)
        show gridSet ctx.grid nx.1 nx.2 _ u.row u.col = some u
        rw [gridSet_ne _ _ _ _ hup]
        exact hmem u huc
  · -- slide branch
    rw [moveStep, ha]
    obtain ⟨hr, hc⟩ := hcons row col t hgt
    rcases findFarthest_cases (getVector dir) ctx.grid size (row, col) with hF | hF
    · -- farthest is the start cell: the step changes nothing
      have hmt : ({ t with
          row := (findFarthestPosition (row, col) (getVector dir) ctx.grid size).1.1
          col := (findFarthestPosition (row, col) (getVector dir) ctx.grid size).1.2 } : Tile)
          = t := by
        rw [hF, ← hr, ← hc]
      have htiles : (applyAction ctx row col
          (.slide t (findFarthestPosition (row, col) (getVector dir) ctx.grid size).1)).tiles
          = ctx.tiles := by
        show replaceFirst ctx.tiles t _ = ctx.tiles
        rw [hmt]
        exact replaceFirst_self _ _
      have hgrid : (applyAction ctx row col
          (.slide t (findFarthestPosition (row, col) (getVector dir) ctx.grid size).1)).grid
          = ctx.grid := by
        show gridSet (gridSet ctx.grid t.row t.col none) _ _ (some _) = ctx.grid
        rw [hmt, hF, hr, hc]
        exact gridSet_restore hgt
      refine ⟨?_, ?_, ?_⟩
      · show PosOK (applyAction ctx row col
          (.slide t (findFarthestPosition (row, col) (getVector dir) ctx.grid size).1)).tiles
        rw [htiles]
        exact hpos
      · show GridCons (applyAction ctx row col
          (.slide t (findFarthestPosition (row, col) (getVector dir) ctx.grid size).1)).grid
        rw [hgrid]
        exact hcons
      · show TilesInGrid _ _
        rw [htiles, hgrid]
        exact hmem
    · -- farthest is an empty cell
      have hmemF : ∀ x ∈ ctx.tiles,
          ¬(x.row = (findFarthestPosition (row, col) (getVector dir) ctx.grid size).1.1 ∧
            x.col = (findFarthestPosition (row, col) (getVector dir) ctx.grid size).1.2) := by
        intro x hx hcpos
        have hx' := hmem x hx
        rw [hcpos.1, hcpos.2, hF] at hx'
        cases hx'
      refine ⟨?_, ?_, ?_⟩
      · show PosOK (replaceFirst ctx.tiles t _)
        refine pairwise_replaceFirst hpos ?_
        intro x hx _
        constructor
        · intro hcpos
          exact hmemF x hx hcpos
        · intro hcpos
          exact hmemF x hx ⟨hcpos.1.symm, hcpos.2.symm⟩
      · show GridCons (gridSet (gridSet ctx.grid t.row t.col none) _ _ (some _))
        exact gridCons_set_some (gridCons_set_none hcons) rfl rfl
      · intro u hu
        rcases mem_replaceFirst_nodup (posOK_nodup hpos) hu with hum | ⟨huc, hune⟩
        · subst hum
          show gridSet (gridSet ctx.grid t.row t.col none) _ _ (some _) _ _ = _
          exact gridSet_at _ _ _ _
        · have hupF : ¬(u.row = (findFarthestPosition (row, col) (getVector dir) ctx.grid size).1.1 ∧
              u.col = (findFarthestPosition (row, col) (getVector dir) ctx.grid size).1.2) :=
            hmemF u huc
          have hupT : ¬(u.row = t.row ∧ u.col = t.col) := by
            intro hcpos
            have hu' := hmem u huc
            rw [hcpos.1, hcpos.2, hr, hc, hgt] at hu'
            exact hune (Option.some_injective _ hu'.symm)
          show gridSet (gridSet ctx.grid t.row t.col none) _ _ (some _) u.row u.col = some u
          rw [gridSet_ne _ _ _ _ hupF, gridSet_ne _ _ _ _ hupT]
          exact hmem u huc

theorem moveLoop_gridCons {size : Int} {dir : Direction} :
    ∀ (cs : List (Int × Int)) (ctx : MoveCtx), GridCons ctx.grid →
      GridCons (moveLoop size dir cs ctx).grid := by
  intro cs
  induction cs with
  | nil => intro ctx h; exact h
  | cons p rest ih =>
    intro ctx h
    exact ih _ (moveStep_gridCons h)

theorem moveLoop_ctxOK {size : Int} {dir : Direction} :
    ∀ (cs : List (Int × Int)) (ctx : MoveCtx), CtxOK ctx →
      CtxOK (moveLoop size dir cs ctx) := by
  intro cs
  induction cs with
  | nil => intro ctx h; exact h
  | cons p rest ih =>
    intro ctx h
    exact ih _ (moveStep_ctxOK h)

theorem moveLoop_noop {size : Int} {dir : Direction} :
    ∀ (cs : List (Int × Int)) (ctx : MoveCtx), GridCons ctx.grid →
      (moveLoop size dir cs ctx).moved = false → moveLoop size dir cs ctx = ctx := by
  intro cs
  induction cs with
  | nil => intro ctx _ _; rfl
  | cons p rest ih =>
    intro ctx hg h
    rw [moveLoop] at h ⊢
    cases hb : (moveStep size dir ctx p.1 p.2).moved with
    | true =>
      rw [moveLoop_moved_mono rest _ hb] at h
      cases h
    | false =>
      rw [moveStep_noop hg hb] at h ⊢
      exact ih ctx hg h

/-! ### Step observables: won flag, score and combo logging -/

theorem moveStep_won (size : Int) (dir : Direction) (ctx : MoveCtx) (row col : Int) :
    (moveStep size dir ctx row col).won =
      (ctx.won ||
        match stepAction size dir ctx row col with
        | .mergeInto tile _ _ => decide (tile.value * 2 = 2048)
        | _ => false) := by
  rcases stepAction_spec size dir ctx row col with ⟨_, ha⟩ |
    ⟨t, nx, nt, _, _, _, _, _, ha⟩ | ⟨t, _, ha⟩ <;>
    rw [moveStep, ha] <;> simp [applyAction, moveTile]

theorem moveStep_score (size : Int) (dir : Direction) (ctx : MoveCtx) (row col : Int) :
    (moveStep size dir ctx row col).score =
      ctx.score + (mergeLogStep size dir ctx row col).sum := by
  rcases stepAction_spec size dir ctx row col with ⟨_, ha⟩ |
    ⟨t, nx, nt, _, _, _, _, _, ha⟩ | ⟨t, _, ha⟩ <;>
    rw [moveStep, mergeLogStep, ha] <;> simp [applyAction, moveTile]

theorem moveStep_combo (size : Int) (dir : Direction) (ctx : MoveCtx) (row col : Int) :
    (moveStep size dir ctx row col).comboCount =
      ctx.comboCount + (mergeLogStep size dir ctx row col).length := by
  rcases stepAction_spec size dir ctx row col with ⟨_, ha⟩ |
    ⟨t, nx, nt, _, _, _, _, _, ha⟩ | ⟨t, _, ha⟩ <;>
    rw [moveStep, mergeLogStep, ha] <;> simp [applyAction, moveTile]

theorem moveLoop_score {size : Int} {dir : Direction} :
    ∀ (cs : List (Int × Int)) (ctx : MoveCtx),
      (moveLoop size dir cs ctx).score =
        ctx.score + (moveLoopLog size dir cs ctx).sum := by
  intro cs
  induction cs with
  | nil => intro ctx; simp [moveLoop, moveLoopLog]
  | cons p rest ih =>
    intro ctx
    rw [moveLoop, moveLoopLog, ih, moveStep_score]
    simp [Nat.add_assoc]

theorem moveLoop_combo {size : Int} {dir : Direction} :
    ∀ (cs : List (Int × Int)) (ctx : MoveCtx),
      (moveLoop size dir cs ctx).comboCount =
        ctx.comboCount + (moveLoopLog size dir cs ctx).length := by
  intro cs
  induction cs with
  | nil => intro ctx; simp [moveLoop, moveLoopLog]
  | cons p rest ih =>
    intro ctx
    rw [moveLoop, moveLoopLog, ih, moveStep_combo]
    simp [Nat.add_assoc]

theorem moveStep_won_mono {size : Int} {dir : Direction} {ctx : MoveCtx} {row col : Int}
    (h : ctx.won = true) : (moveStep size dir ctx row col).won = true := by
  rw [moveStep_won, h]
  rfl

theorem moveLoop_won_mono {size : Int} {dir : Direction} :
    ∀ (cs : List (Int × Int)) (ctx : MoveCtx), ctx.won = true →
      (moveLoop size dir cs ctx).won = true := by
  intro cs
  induction cs with
  | nil => intro ctx h; exact h
  | cons p rest ih =>
    intro ctx h
    exact ih _ (moveStep_won_mono h)

/-! ### Spawn and grid-transfer lemmas -/

theorem mem_emptyCellsOf {st : GameState} {size : Int} {p : Int × Int}
    (h : p ∈ emptyCellsOf st size) : ∀ t ∈ st.tiles, ¬(t.row = p.1 ∧ t.col = p.2) := by
  intro t ht hc
  rw [emptyCellsOf, List.mem_flatMap] at h
  obtain ⟨r, _, h⟩ := h
  rw [List.mem_filterMap] at h
  obtain ⟨c, _, hsome⟩ := h
  by_cases hany : st.tiles.any (fun t => t.row = (r : Int) ∧ t.col = (c : Int))
  · rw [if_pos hany] at hsome
    cases hsome
  · rw [if_neg hany] at hsome
    cases hsome
    apply hany
    rw [List.any_eq_true]
    exact ⟨t, ht, by simp [hc.1, hc.2]⟩

theorem spawnTile_posOK {st : GameState} {size : Int} {nid pick : Nat} {two : Bool}
    (h : PosOK st.tiles) : PosOK (spawnTile st size nid pick two).tiles := by
  rw [spawnTile]
  split
  · exact h
  · rename_i hne
    rw [PosOK, List.pairwise_append]
    refine ⟨h, List.pairwise_singleton _ _, ?_⟩
    intro a ha b hb
    rw [List.mem_singleton] at hb
    subst hb
    have hcell : (emptyCellsOf st size).get
        ⟨pick % (emptyCellsOf st size).length, Nat.mod_lt _ (Nat.pos_of_ne_zero hne)⟩
        ∈ emptyCellsOf st size := List.get_mem _ _ _
    exact fun hc => mem_emptyCellsOf hcell a ha ⟨hc.1, hc.2⟩

theorem spawnTile_score (st : GameState) (size : Int) (nid pick : Nat) (two : Bool) :
    (spawnTile st size nid pick two).score = st.score := by
  rw [spawnTile]
  split <;> rfl

theorem spawnTile_moves (st : GameState) (size : Int) (nid pick : Nat) (two : Bool) :
    (spawnTile st size nid pick two).moves = st.moves := by
  rw [spawnTile]
  split <;> rfl

theorem spawnTile_combo (st : GameState) (size : Int) (nid pick : Nat) (two : Bool) :
    (spawnTile st size nid pick two).comboCount = st.comboCount := by
  rw [spawnTile]
  split <;> rfl

theorem spawnTile_gameOver (st : GameState) (size : Int) (nid pick : Nat) (two : Bool) :
    (spawnTile st size nid pick two).gameOver = st.gameOver := by
  rw [spawnTile]
  split <;> rfl

theorem spawnTile_won (st : GameState) (size : Int) (nid pick : Nat) (two : Bool) :
    (spawnTile st size nid pick two).won = st.won := by
  rw [spawnTile]
  split <;> rfl

theorem foldl_placeTile_map {f : Tile → Tile}
    (hf : ∀ t, (f t).row = t.row ∧ (f t).col = t.col) :
    ∀ (ts : List Tile) (g : Grid),
      (ts.map f).foldl placeTile (fun r c => (g r c).map f) =
        fun r c => ((ts.foldl placeTile g) r c).map f := by
  intro ts
  induction ts with
  | nil => intro g; rfl
  | cons t ts ih =>
    intro g
    rw [List.map_cons, List.foldl_cons, List.foldl_cons]
    have hstep : placeTile (fun r c => (g r c).map f) (f t) =
        fun r c => ((placeTile g t) r c).map f := by
      funext r c
      rw [placeTile, placeTile, gridSet, gridSet, (hf t).1, (hf t).2]
      by_cases hrc : r = t.row ∧ c = t.col
      · rw [if_pos hrc, if_pos hrc]
        rfl
      · rw [if_neg hrc, if_neg hrc]
    rw [hstep, ih (placeTile g t)]

theorem buildGrid_map_clear (tiles : List Tile) :
    buildGrid (tiles.map clearTileFlags) =
      fun r c => ((buildGrid tiles) r c).map clearTileFlags := by
  rw [buildGrid, buildGrid]
  exact @foldl_placeTile_map clearTileFlags (fun t => ⟨rfl, rfl⟩) tiles (fun _ _ => none)

theorem clearTileFlags_posOK {tiles : List Tile} (h : PosOK tiles) :
    PosOK (tiles.map clearTileFlags) := by
  rw [PosOK, List.pairwise_map]
  exact h.imp fun hab => hab

theorem initCtx_ctxOK {st : GameState} (h : PosOK st.tiles) : CtxOK (initCtx st) := by
  refine ⟨clearTileFlags_posOK h, buildGrid_gridCons _, ?_⟩
  exact buildGrid_tilesInGrid (clearTileFlags_posOK h)

/-! ### `move` plumbing -/

theorem move_fst_history (e : GameEngine) (dir : Direction) (size : Int) (nid pick : Nat)
    (two : Bool) : (move e dir size nid pick two).1.history = e.history := by
  by_cases h : (moveCore e.state dir size).moved = true <;> simp [move, h]

theorem move_fst_undos (e : GameEngine) (dir : Direction) (size : Int) (nid pick : Nat)
    (two : Bool) : (move e dir size nid pick two).1.undosRemaining = e.undosRemaining := by
  by_cases h : (moveCore e.state dir size).moved = true <;> simp [move, h]

theorem move_snd (e : GameEngine) (dir : Direction) (size : Int) (nid pick : Nat)
    (two : Bool) : (move e dir size nid pick two).2 = (moveCore e.state dir size).moved := by
  by_cases h : (moveCore e.state dir size).moved = true <;> simp [move, h]

/-! ### Terminal-state characterization -/

theorem checkAvailableMoves_false {st : GameState} {size : Int}
    (h : checkAvailableMoves st size = false) :
    gridFull (buildGrid st.tiles) size ∧ noAdjEq (buildGrid st.tiles) size := by
  rw [checkAvailableMoves, List.any_eq_false] at h
  have hcell : ∀ (r c : Int), 0 ≤ r → r < size → 0 ≤ c → c < size →
      (match buildGrid st.tiles r c with
       | none => true
       | some tile =>
         (decide (c < size - 1) &&
           ((buildGrid st.tiles r (c + 1)).map Tile.value == some tile.value)) ||
         (decide (r < size - 1) &&
           ((buildGrid st.tiles (r + 1) c).map Tile.value == some tile.value))) = false := by
    intro r c hr0 hrs hc0 hcs
    have hri : r.toNat ∈ List.range size.toNat := by
      rw [List.mem_range]
      omega
    have h1 := h r.toNat hri
    rw [Bool.not_eq_true, List.any_eq_false] at h1
    have hci : c.toNat ∈ List.range size.toNat := by
      rw [List.mem_range]
      omega
    have h2 := h1 c.toNat hci
    rw [Bool.not_eq_true] at h2
    have hr' : ((r.toNat : Nat) : Int) = r := by omega
    have hc' : ((c.toNat : Nat) : Int) = c := by omega
    rw [hr', hc'] at h2
    exact h2
  constructor
  · intro r c hr0 hrs hc0 hcs
    have hx := hcell r c hr0 hrs hc0 hcs
    rcases hg : buildGrid st.tiles r c with _ | t
    · rw [hg] at hx
      cases hx
    · simp [hg]
  · constructor
    · intro r c t u hr0 hrs hc0 hc1s hgt hgu
      have hcm := hcell r c hr0 hrs hc0 (by omega)
      rw [hgt, Bool.or_eq_false_iff] at hcm
      have hA := hcm.1
      have hclt : (decide (c < size - 1)) = true := by
        simp only [decide_eq_true_eq]
        omega
      rw [hclt, Bool.true_and, hgu] at hA
      simp at hA
      exact fun heq => hA heq.symm
    · intro r c t u hr0 hr1s hc0 hcs hgt hgu
      have hcm := hcell r c hr0 (by omega) hc0 hcs
      rw [hgt, Bool.or_eq_false_iff] at hcm
      have hB := hcm.2
      have hrlt : (decide (r < size - 1)) = true := by
        simp only [decide_eq_true_eq]
        omega
      rw [hrlt, Bool.true_and, hgu] at hB
      simp at hB
      exact fun heq => hB heq.symm

/-! ### Blocked-board lemmas -/

theorem findFarthest_full {v : Int × Int} {g : Grid} {size : Int} {p : Int × Int}
    (hfull : gridFull g size) (hin : inB size p) :
    findFarthestPosition p v g size =
      if p.1 + v.1 < 0 ∨ size ≤ p.1 + v.1 ∨ p.2 + v.2 < 0 ∨ size ≤ p.2 + v.2
        then (p, none) else (p, some (p.1 + v.1, p.2 + v.2)) := by
  obtain ⟨h1, h2, h3, h4⟩ := hin
  obtain ⟨n, hn⟩ : ∃ n, size.toNat = n + 1 := ⟨size.toNat - 1, by omega⟩
  rw [findFarthestPosition, hn]
  by_cases hb : p.1 + v.1 < 0 ∨ size ≤ p.1 + v.1 ∨ p.2 + v.2 < 0 ∨ size ≤ p.2 + v.2
  · rw [if_pos hb]
    simp only [ffpAux, if_pos hb]
  · rw [if_neg hb]
    push_neg at hb
    have hocc : (g (p.1 + v.1) (p.2 + v.2)).isSome :=
      hfull _ _ hb.1 hb.2.1 hb.2.2.1 hb.2.2.2
    have hb' : ¬(p.1 + v.1 < 0 ∨ size ≤ p.1 + v.1 ∨ p.2 + v.2 < 0 ∨ size ≤ p.2 + v.2) := by
      push_neg
      exact hb
    simp only [ffpAux, if_neg hb', if_pos hocc]

theorem slide_self {ctx : MoveCtx} {row col : Int} {t : Tile}
    (hgt : ctx.grid row col = some t) (hr : t.row = row) (hc : t.col = col) :
    applyAction ctx row col (.slide t (row, col)) = ctx := by
  have hmt : ({ t with row := row, col := col } : Tile) = t := by
    rw [← hr, ← hc]
  obtain ⟨ctiles, cgrid, cscore, ccombo, cwon, cmerged, cmoved⟩ := ctx
  simp only [applyAction, moveTile, MoveCtx.mk.injEq]
  refine ⟨?_, ?_, trivial, trivial, trivial, trivial, ?_⟩
  · rw [hmt]
    exact replaceFirst_self _ _
  · rw [hmt, hr, hc]
    exact gridSet_restore hgt
  · simp

theorem moveStep_blocked {size : Int} {dir : Direction} {ctx : MoveCtx} {row col : Int}
    (hcons : GridCons ctx.grid) (hfull : gridFull ctx.grid size)
    (hadj : noAdjEq ctx.grid size) (hin : inB size (row, col)) :
    moveStep size dir ctx row col = ctx := by
  have hffp := @findFarthest_full (getVector dir) ctx.grid size (row, col) hfull hin
  rcases stepAction_spec size dir ctx row col with ⟨hg, ha⟩ |
    ⟨t, nx, nt, hgt, hp, hgn, hval, hnm, ha⟩ | ⟨t, hgt, ha⟩
  · exfalso
    have := hfull row col hin.1 hin.2.1 hin.2.2.1 hin.2.2.2
    rw [hg] at this
    cases this
  · -- a merge is impossible on a blocked board
    exfalso
    rw [hffp] at hp
    by_cases hb : (row, col).1 + (getVector dir).1 < 0 ∨ size ≤ (row, col).1 + (getVector dir).1 ∨
        (row, col).2 + (getVector dir).2 < 0 ∨ size ≤ (row, col).2 + (getVector dir).2
    · rw [if_pos hb] at hp
      cases hp
    · rw [if_neg hb] at hp
      cases hp
      push_neg at hb
      obtain ⟨hb1, hb2, hb3, hb4⟩ := hb
      obtain ⟨hi1, hi2, hi3, hi4⟩ := hin
      obtain ⟨hr, hc⟩ := hcons row col t hgt
      cases dir with
      | up =>
        simp only [getVector] at hgn hb1 hb2 hb3 hb4
        have harith : row + -1 + 1 = row := by ring
        have hcol : col + 0 = col := by ring
        rw [hcol] at hgn
        have := hadj.2 (row + -1) col nt t hb1 (by omega) hi3 hi4
          hgn (by rw [harith]; exact hgt)
        exact this (hval.trans rfl)
      | down =>
        simp only [getVector] at hgn hb1 hb2 hb3 hb4
        have hcol : col + 0 = col := by ring
        rw [hcol] at hgn
        have := hadj.2 row col t nt hi1 (by omega) hi3 hi4 hgt hgn
        exact this hval.symm
      | left =>
        simp only [getVector] at hgn hb1 hb2 hb3 hb4
        have harith : col + -1 + 1 = col := by ring
        have hrow : row + 0 = row := by ring
        rw [hrow] at hgn
        have := hadj.1 row (col + -1) nt t hi1 hi2 hb3 (by omega)
          hgn (by rw [harith]; exact hgt)
        exact this (hval.trans rfl)
      | right =>
        simp only [getVector] at hgn hb1 hb2 hb3 hb4
        have hrow : row + 0 = row := by ring
        rw [hrow] at hgn
        have := hadj.1 row col t nt hi1 hi2 hi3 (by omega) hgt hgn
        exact this hval.symm
  · -- slide to the very same cell
    have h1 : (findFarthestPosition (row, col) (getVector dir) ctx.grid size).1 = (row, col) := by
      rw [hffp]
      split <;> rfl
    rw [moveStep, ha, h1]
    obtain ⟨hr, hc⟩ := hcons row col t hgt
    exact slide_self hgt hr hc

theorem mem_traversalCells {dir : Direction} {size : Int} {p : Int × Int}
    (h : p ∈ traversalCells dir size) : inB size p := by
  rw [traversalCells, List.mem_flatMap] at h
  obtain ⟨r, hr, h⟩ := h
  rw [List.mem_map] at h
  obtain ⟨c, hc, hp⟩ := h
  subst hp
  rw [getTraversals] at hr hc
  have hrows : ∀ (x : Int), x ∈ (List.range size.toNat).map Int.ofNat →
      0 ≤ x ∧ x < size := by
    intro x hx
    rw [List.mem_map] at hx
    obtain ⟨i, hi, hx⟩ := hx
    rw [List.mem_range] at hi
    subst hx
    rw [Int.ofNat_eq_natCast]
    omega
  have hr' : 0 ≤ r ∧ r < size := by
    by_cases hd : dir = .down
    · simp only [hd, if_pos] at hr
      rw [List.mem_reverse] at hr
      exact hrows r hr
    · rw [if_neg hd] at hr
      exact hrows r hr
  have hc' : 0 ≤ c ∧ c < size := by
    by_cases hd : dir = .right
    · simp only [hd, if_pos] at hc
      rw [List.mem_reverse] at hc
      exact hrows c hc
    · rw [if_neg hd] at hc
      exact hrows c hc
  exact ⟨hr'.1, hr'.2, hc'.1, hc'.2⟩

theorem moveLoop_blocked {size : Int} {dir : Direction} :
    ∀ (cs : List (Int × Int)) (ctx : MoveCtx), (∀ p ∈ cs, inB size p) →
      GridCons ctx.grid → gridFull ctx.grid size → noAdjEq ctx.grid size →
      moveLoop size dir cs ctx = ctx := by
  intro cs
  induction cs with
  | nil => intro ctx _ _ _ _; rfl
  | cons p rest ih =>
    intro ctx hmem hcons hfull hadj
    rw [moveLoop]
    have hp : inB size (p.1, p.2) := hmem p (List.mem_cons_self _ _)
    rw [moveStep_blocked hcons hfull hadj hp]
    exact ih ctx (fun q hq => hmem q (List.mem_cons_of_mem _ hq)) hcons hfull hadj

/-! ### Move-level lemmas -/

theorem move_posOK {e : GameEngine} {dir : Direction} {size : Int} {nid pick : Nat} {two : Bool}
    (h : PosOK e.state.tiles) : PosOK (move e dir size nid pick two).1.state.tiles := by
  have hOK : CtxOK (moveLoop size dir (traversalCells dir size) (initCtx e.state)) :=
    moveLoop_ctxOK _ _ (initCtx_ctxOK h)
  by_cases hm : (moveCore e.state dir size).moved = true
  · simp only [move, hm, if_true]
    split
    · exact spawnTile_posOK hOK.1
    · exact spawnTile_posOK hOK.1
  · simp only [move, hm, if_false, Bool.false_eq_true]
    exact hOK.1

theorem move_won_mono {e : GameEngine} {dir : Direction} {size : Int} {nid pick : Nat}
    {two : Bool} (h : e.state.won = true) :
    (move e dir size nid pick two).1.state.won = true := by
  have hw : (moveCore e.state dir size).won = true :=
    moveLoop_won_mono _ _ h
  by_cases hm : (moveCore e.state dir size).moved = true
  · simp only [move, hm, if_true]
    split
    · rw [spawnTile_won]
      exact hw
    · show (spawnTile _ _ _ _ _).won = true
      rw [spawnTile_won]
      exact hw
  · simp only [move, hm, if_false, Bool.false_eq_true]
    exact hw

theorem move_gameOver_mono {e : GameEngine} {dir : Direction} {size : Int} {nid pick : Nat}
    {two : Bool} (h : e.state.gameOver = true) :
    (move e dir size nid pick two).1.state.gameOver = true := by
  by_cases hm : (moveCore e.state dir size).moved = true
  · simp only [move, hm, if_true]
    split
    · rw [spawnTile_gameOver]
      exact h
    · rfl
  · simp only [move, hm, if_false, Bool.false_eq_true]
    exact h

theorem move_gameOver_terminal {e : GameEngine} {dir : Direction} {size : Int} {nid pick : Nat}
    {two : Bool} (h : (move e dir size nid pick two).1.state.gameOver = true) :
    e.state.gameOver = true ∨
      (gridFull (buildGrid (move e dir size nid pick two).1.state.tiles) size ∧
       noAdjEq (buildGrid (move e dir size nid pick two).1.state.tiles) size) := by
  by_cases hm : (moveCore e.state dir size).moved = true
  · simp only [move, hm, if_true] at h ⊢
    by_cases hc : checkAvailableMoves (spawnTile
        { tiles := (moveCore e.state dir size).tiles
          score := (moveCore e.state dir size).score
          moves := e.state.moves + 1
          comboCount := (moveCore e.state dir size).comboCount
          gameOver := e.state.gameOver
          won := (moveCore e.state dir size).won } size nid pick two) size = true
    · rw [if_pos hc] at h
      rw [spawnTile_gameOver] at h
      exact .inl h
    · have hc' : checkAvailableMoves (spawnTile
          { tiles := (moveCore e.state dir size).tiles
            score := (moveCore e.state dir size).score
            moves := e.state.moves + 1
            comboCount := (moveCore e.state dir size).comboCount
            gameOver := e.state.gameOver
            won := (moveCore e.state dir size).won } size nid pick two) size = false :=
        Bool.not_eq_true _ ▸ Bool.of_not_eq_true hc
      right
      rw [if_neg hc]
      exact checkAvailableMoves_false hc'
  · simp only [move, hm, if_false, Bool.false_eq_true] at h
    exact .inl h

theorem move_score_log (e : GameEngine) (dir : Direction) (size : Int) (nid pick : Nat)
    (two : Bool) :
    (move e dir size nid pick two).1.state.score =
      e.state.score + (moveLoopLog size dir (traversalCells dir size) (initCtx e.state)).sum := by
  have hs : (moveCore e.state dir size).score =
      e.state.score + (moveLoopLog size dir (traversalCells dir size) (initCtx e.state)).sum :=
    moveLoop_score _ _
  by_cases hm : (moveCore e.state dir size).moved = true
  · simp only [move, hm, if_true]
    split
    · rw [spawnTile_score]
      exact hs
    · show (spawnTile _ _ _ _ _).score = _
      rw [spawnTile_score]
      exact hs
  · simp only [move, hm, if_false, Bool.false_eq_true]
    exact hs

theorem move_combo_log (e : GameEngine) (dir : Direction) (size : Int) (nid pick : Nat)
    (two : Bool) :
    (move e dir size nid pick two).1.state.comboCount =
      (moveLoopLog size dir (traversalCells dir size) (initCtx e.state)).length := by
  have hs : (moveCore e.state dir size).comboCount =
      0 + (moveLoopLog size dir (traversalCells dir size) (initCtx e.state)).length :=
    moveLoop_combo _ _
  rw [Nat.zero_add] at hs
  by_cases hm : (moveCore e.state dir size).moved = true
  · simp only [move, hm, if_true]
    split
    · rw [spawnTile_combo]
      exact hs
    · show (spawnTile _ _ _ _ _).comboCount = _
      rw [spawnTile_combo]
      exact hs
  · simp only [move, hm, if_false, Bool.false_eq_true]
    exact hs

theorem mem_replaceFirst_self {l : List Tile} {a : Tile} (h : a ∈ l) (b : Tile) :
    b ∈ replaceFirst l a b := by
  induction l with
  | nil => cases h
  | cons t ts ih =>
    by_cases ht : t = a
    · rw [replaceFirst, if_pos ht]
      exact List.mem_cons_self _ _
    · rw [replaceFirst, if_neg ht]
      rcases List.mem_cons.mp h with h1 | h1
      · exact absurd h1.symm ht
      · exact List.mem_cons_of_mem _ (ih h1)

/-- Inversion: if the step decided to merge, recover the branch conditions. -/
theorem stepAction_merge_inv {size : Int} {dir : Direction} {ctx : MoveCtx} {row col : Int}
    {t nt : Tile} {nx : Int × Int}
    (ha : stepAction size dir ctx row col = .mergeInto t nt nx) :
    ctx.grid row col = some t ∧ ctx.grid nx.1 nx.2 = some nt ∧ nt.value = t.value ∧
      nx ∉ ctx.mergedPositions := by
  rcases stepAction_spec size dir ctx row col with ⟨_, ha'⟩ |
    ⟨t', nx', nt', hgt, hp, hgn, hval, hnm, ha'⟩ | ⟨t', _, ha'⟩
  · rw [ha'] at ha
    cases ha
  · rw [ha'] at ha
    injection ha with h1 h2 h3
    subst h1
    subst h2
    subst h3
    exact ⟨hgt, hgn, hval, hnm⟩
  · rw [ha'] at ha
    cases ha

/-! ### History push/pop lemmas -/

theorem getLast_push_shift (l : List GameState) (a : GameState) :
    (if 10 < (l ++ [a]).length then (l ++ [a]).drop 1 else l ++ [a]).getLast? = some a := by
  split
  · rename_i hlen
    cases l with
    | nil => simp at hlen
    | cons x xs =>
      rw [List.cons_append, List.drop_one, List.tail_cons]
      exact List.getLast?_concat _
  · exact List.getLast?_concat _

/-! ### Engine-invariant preservation -/

theorem handleMove_engOK {e : GameEngine} {dir : Direction} {size : Int} {nid pick : Nat}
    {two : Bool} (h : EngOK e) : EngOK (handleMove e dir size nid pick two) := by
  obtain ⟨hst, hh⟩ := h
  rw [handleMove]
  split
  · exact ⟨hst, hh⟩
  · dsimp only
    split
    · refine ⟨move_posOK hst, ?_⟩
      intro s hs
      have hsub : s ∈ (move e dir size nid pick two).1.history ++ [e.state] := by
        rename_i hx
        revert hs
        show s ∈ (if _ then _ else _) → _
        split
        · intro hs
          exact (List.drop_subset _ _) hs
        · intro hs
          exact hs
      rw [move_fst_history] at hsub
      rcases List.mem_append.mp hsub with hs1 | hs1
      · exact hh s hs1
      · rw [List.mem_singleton] at hs1
        subst hs1
        exact hst
    · refine ⟨move_posOK hst, ?_⟩
      intro s hs
      rw [move_fst_history] at hs
      exact hh s hs

theorem handleUndo_engOK {e : GameEngine} (h : EngOK e) : EngOK (handleUndo e) := by
  obtain ⟨hst, hh⟩ := h
  rw [handleUndo]
  split
  · rcases hl : e.history.getLast? with _ | prev
    · exact ⟨hst, hh⟩
    · have hmem0 : prev ∈ e.history.getLast? := by rw [hl]; rfl
      obtain ⟨hne, heq⟩ := List.mem_getLast?_eq_getLast hmem0
      have hprev : prev ∈ e.history := by
        rw [heq]
        exact List.getLast_mem hne
      refine ⟨hh prev hprev, ?_⟩
      intro s hs
      exact hh s (List.mem_of_mem_dropLast hs)
  · exact ⟨hst, hh⟩

theorem spawn_engOK {e : GameEngine} {size : Int} {nid pick : Nat} {two : Bool}
    (h : EngOK e) : EngOK { e with state := spawnTile e.state size nid pick two } :=
  ⟨spawnTile_posOK h.1, h.2⟩

theorem initGame_engOK (size : Int) (hs pick1 pick2 : Nat) (two1 two2 : Bool) :
    EngOK (initGame size hs pick1 pick2 two1 two2) := by
  refine ⟨?_, ?_⟩
  · exact spawnTile_posOK (spawnTile_posOK List.Pairwise.nil)
  · intro s hs
    cases hs

theorem reachable_engOK {size : Int} {e : GameEngine} (h : Reachable size e) : EngOK e := by
  induction h with
  | init hs pick1 pick2 two1 two2 => exact initGame_engOK size hs pick1 pick2 two1 two2
  | mv e dir nid pick two _ ih => exact handleMove_engOK ih
  | sp e nid pick two _ ih => exact spawn_engOK ih
  | undo e _ ih => exact handleUndo_engOK ih

theorem ffpFuelNeed_le {dir : Direction} {size : Int} {p : Int × Int} (h : inB size p) :
    ffpFuelNeed dir size p ≤ size.toNat := by
  obtain ⟨h1, h2, h3, h4⟩ := h
  cases dir <;> simp only [ffpFuelNeed] <;> omega

/-! ### Claim theorems -/

/-- C1 (amended): when a merge fires and both participating tiles are present in
the tile collection, the two equal-valued tiles are replaced by exactly one tile
of doubled value: the collection shrinks by exactly one tile, the total sum of
tile values is unchanged (it does not increase by `v`), the score increases by
exactly `2 v`, and the combo count increases by one. -/
theorem C1_merge_conservation {size : Int} {dir : Direction} {ctx : MoveCtx} {row col : Int}
    {t nt : Tile} {nx : Int × Int}
    (ha : stepAction size dir ctx row col = .mergeInto t nt nx)
    (ht : t ∈ ctx.tiles) (hnt : nt ∈ eraseFirst ctx.tiles t) :
    (moveStep size dir ctx row col).tiles.length + 1 = ctx.tiles.length ∧
    sumValues (moveStep size dir ctx row col).tiles = sumValues ctx.tiles ∧
    (moveStep size dir ctx row col).score = ctx.score + t.value * 2 ∧
    (moveStep size dir ctx row col).comboCount = ctx.comboCount + 1 ∧
    ({ id := nt.id, value := t.value * 2, row := nx.1, col := nx.2,
       isNew := false, justMerged := true } : Tile) ∈ (moveStep size dir ctx row col).tiles := by
  obtain ⟨hgt, hgn, hval, hnm⟩ := stepAction_merge_inv ha
  rw [moveStep, ha]
  refine ⟨?_, ?_, rfl, rfl, ?_⟩
  · show (replaceFirst (eraseFirst ctx.tiles t) nt _).length + 1 = ctx.tiles.length
    rw [replaceFirst_length]
    exact eraseFirst_length ht
  · show sumValues (replaceFirst (eraseFirst ctx.tiles t) nt
      { id := nt.id, value := t.value * 2, row := nx.1, col := nx.2,
        isNew := false, justMerged := true }) = sumValues ctx.tiles
    have h1 := sumValues_replaceFirst hnt
      ({ id := nt.id, value := t.value * 2, row := nx.1, col := nx.2,
         isNew := false, justMerged := true } : Tile)
    have h2 := sumValues_eraseFirst ht
    simp only at h1
    rw [hval] at h1
    omega
  · show _ ∈ replaceFirst (eraseFirst ctx.tiles t) nt _
    exact mem_replaceFirst_self hnt _

/-- C1 counterexample: on the board with two value-2 tiles at (0,0) and (0,1),
moving left performs exactly one merge, yet the sum of tile values stays 4
instead of increasing by `v = 2` as the claim states. -/
theorem C1_counterexample :
    sumValues exStatePair.tiles = 4 ∧
    (moveCore exStatePair .left 4).comboCount = 1 ∧
    sumValues (moveCore exStatePair .left 4).tiles = 4 ∧
    ¬(sumValues (moveCore exStatePair .left 4).tiles = sumValues exStatePair.tiles + 2) := by
  decide

/-- C1 witness: the merge step on that same board, at cell (0,1), satisfies the
amended conservation statement. -/
theorem C1_witness :
    (moveStep 4 .left (initCtx exStatePair) 0 1).tiles.length + 1 =
      (initCtx exStatePair).tiles.length ∧
    sumValues (moveStep 4 .left (initCtx exStatePair) 0 1).tiles =
      sumValues (initCtx exStatePair).tiles ∧
    (moveStep 4 .left (initCtx exStatePair) 0 1).score =
      (initCtx exStatePair).score + (mkTile 1 0 1 2).value * 2 ∧
    (moveStep 4 .left (initCtx exStatePair) 0 1).comboCount =
      (initCtx exStatePair).comboCount + 1 ∧
    ({ id := (mkTile 0 0 0 2).id, value := (mkTile 1 0 1 2).value * 2, row := (0 : Int),
       col := (0 : Int), isNew := false, justMerged := true } : Tile) ∈
      (moveStep 4 .left (initCtx exStatePair) 0 1).tiles :=
  @C1_merge_conservation 4 .left (initCtx exStatePair) 0 1 (mkTile 1 0 1 2) (mkTile 0 0 0 2)
    (0, 0) (by decide) (by decide) (by decide)

/-- C2: the spec's four-2s scenario fails on the code.  Because the merge branch
never clears the moving tile's grid cell, stale grid entries merge again and
again: moving left on (0,0)=2,(0,1)=2,(0,2)=2,(0,3)=2 leaves a single value-4
tile at (0,0) in the collection, with comboCount 3 and score delta 12, instead
of two value-4 tiles at (0,0),(0,1) with comboCount 2. -/
theorem C2_triple_merge_bug :
    (moveCore exState4x2 .left 4).tiles =
      [{ id := 0, value := 4, row := 0, col := 0, isNew := false, justMerged := true }] ∧
    (moveCore exState4x2 .left 4).comboCount = 3 ∧
    (moveCore exState4x2 .left 4).score = 12 ∧
    (moveCore exState4x2 .left 4).moved = true ∧
    ¬((moveCore exState4x2 .left 4).comboCount = 2) := by
  decide

/-- C3 (amended): a rejected move returns false and leaves score, move counter,
tile positions and values, history and undo budget unchanged, and performs no
spawn; however it does clear the transient `isNew`/`justMerged` flags of every
tile and resets `comboCount` to 0. -/
theorem C3_rejected_move {e : GameEngine} {dir : Direction} {size : Int} {nid pick : Nat}
    {two : Bool} (h : (move e dir size nid pick two).2 = false) :
    (move e dir size nid pick two).1 =
      { e with state :=
          { e.state with tiles := e.state.tiles.map clearTileFlags, comboCount := 0 } } := by
  have hm : (moveCore e.state dir size).moved = false := by
    rw [move_snd] at h
    exact h
  have hcore : moveCore e.state dir size = initCtx e.state :=
    moveLoop_noop _ _ (buildGrid_gridCons _) hm
  simp only [move, hm, if_false, Bool.false_eq_true]
  rw [hcore]
  rfl

/-- C3 counterexample: a rejected move (single tile at (0,0) moved left) returns
false but does not leave the state byte-for-byte unchanged: comboCount is reset
from 5 to 0 and the tile's `isNew` flag is cleared. -/
theorem C3_counterexample :
    (move exEngineStuck .left 4 9 0 true).2 = false ∧
    (move exEngineStuck .left 4 9 0 true).1.state.comboCount = 0 ∧
    exEngineStuck.state.comboCount = 5 ∧
    ¬((move exEngineStuck .left 4 9 0 true).1.state = exEngineStuck.state) := by
  decide

/-- C3 witness: the amended statement at the concrete rejected move. -/
theorem C3_witness :
    (move exEngineStuck .left 4 9 0 true).2 = false ∧
    (move exEngineStuck .left 4 9 0 true).1 =
      { exEngineStuck with state :=
          { exEngineStuck.state with
            tiles := exEngineStuck.state.tiles.map clearTileFlags, comboCount := 0 } } :=
  ⟨by decide, C3_rejected_move (by decide)⟩

/-- C4: if the terminal-state detector reports no moves available, then every
one of the four directions yields `moved = false`. -/
theorem C4_terminal_sound {e : GameEngine} {size : Int}
    (h : checkAvailableMoves e.state size = false) :
    ∀ (dir : Direction) (nid pick : Nat) (two : Bool),
      (move e dir size nid pick two).2 = false := by
  intro dir nid pick two
  rw [move_snd]
  obtain ⟨hfull, hadj⟩ := checkAvailableMoves_false h
  have hmapg := buildGrid_map_clear e.state.tiles
  have hfull' : gridFull (buildGrid (e.state.tiles.map clearTileFlags)) size := by
    intro r c hr0 hrs hc0 hcs
    simp only [hmapg]
    have hx := hfull r c hr0 hrs hc0 hcs
    rcases hy : buildGrid e.state.tiles r c with _ | t0
    · rw [hy] at hx
      cases hx
    · simp
  have hadj' : noAdjEq (buildGrid (e.state.tiles.map clearTileFlags)) size := by
    constructor
    · intro r c t u hr0 hrs hc0 hc1s hgt hgu
      simp only [hmapg] at hgt hgu
      rcases hy : buildGrid e.state.tiles r c with _ | t0 <;> rw [hy] at hgt
      · cases hgt
      · rcases hz : buildGrid e.state.tiles r (c + 1) with _ | u0 <;> rw [hz] at hgu
        · cases hgu
        · simp only [Option.map_some'] at hgt hgu
          cases hgt
          cases hgu
          exact hadj.1 r c t0 u0 hr0 hrs hc0 hc1s hy hz
    · intro r c t u hr0 hr1s hc0 hcs hgt hgu
      simp only [hmapg] at hgt hgu
      rcases hy : buildGrid e.state.tiles r c with _ | t0 <;> rw [hy] at hgt
      · cases hgt
      · rcases hz : buildGrid e.state.tiles (r + 1) c with _ | u0 <;> rw [hz] at hgu
        · cases hgu
        · simp only [Option.map_some'] at hgt hgu
          cases hgt
          cases hgu
          exact hadj.2 r c t0 u0 hr0 hr1s hc0 hcs hy hz
  have hloop : moveLoop size dir (traversalCells dir size) (initCtx e.state) =
      initCtx e.state :=
    moveLoop_blocked _ _ (fun p hp => mem_traversalCells hp)
      (buildGrid_gridCons _) hfull' hadj'
  show (moveLoop size dir (traversalCells dir size) (initCtx e.state)).moved = false
  rw [hloop]
  rfl

/-- C4 witness: a full 4×4 board with no adjacent equal values rejects all four
directions. -/
theorem C4_witness :
    checkAvailableMoves exEngineBlocked.state 4 = false ∧
    (move exEngineBlocked .up 4 0 0 true).2 = false ∧
    (move exEngineBlocked .down 4 0 0 true).2 = false ∧
    (move exEngineBlocked .left 4 0 0 true).2 = false ∧
    (move exEngineBlocked .right 4 0 0 true).2 = false :=
  ⟨by decide,
   C4_terminal_sound (by decide) .up 0 0 true,
   C4_terminal_sound (by decide) .down 0 0 true,
   C4_terminal_sound (by decide) .left 0 0 true,
   C4_terminal_sound (by decide) .right 0 0 true⟩

/-- C5: from a live state with undos remaining, a successful move followed by an
undo restores exactly the state from before the move call (hence equal up to
transient flags as well), and consumes exactly one undo. -/
theorem C5_undo_roundtrip {e : GameEngine} {dir : Direction} {size : Int} {nid pick : Nat}
    {two : Bool} (hgo : e.state.gameOver = false) (hu : 0 < e.undosRemaining)
    (hmv : (move e dir size nid pick two).2 = true) :
    (handleUndo (handleMove e dir size nid pick two)).state = e.state ∧
    (handleUndo (handleMove e dir size nid pick two)).undosRemaining =
      e.undosRemaining - 1 := by
  have hgo' : ¬(e.state.gameOver = true) := by
    rw [hgo]
    exact Bool.false_ne_true
  set em := handleMove e dir size nid pick two with hem
  have h1 : em.undosRemaining = e.undosRemaining := by
    rw [hem, handleMove, if_neg hgo']
    dsimp only
    rw [if_pos hmv]
    show (move e dir size nid pick two).1.undosRemaining = e.undosRemaining
    exact move_fst_undos e dir size nid pick two
  have h2 : em.history.getLast? = some e.state := by
    rw [hem, handleMove, if_neg hgo']
    dsimp only
    rw [if_pos hmv]
    show (if 10 < ((move e dir size nid pick two).1.history ++ [e.state]).length
        then ((move e dir size nid pick two).1.history ++ [e.state]).drop 1
        else (move e dir size nid pick two).1.history ++ [e.state]).getLast? = some e.state
    exact getLast_push_shift _ _
  rw [handleUndo, h1, if_pos hu, h2]
  exact ⟨rfl, rfl⟩

/-- C5 witness: the roundtrip at a concrete successful move. -/
theorem C5_witness :
    (handleUndo (handleMove exEnginePair .left 4 50 0 true)).state = exEnginePair.state ∧
    (handleUndo (handleMove exEnginePair .left 4 50 0 true)).undosRemaining =
      exEnginePair.undosRemaining - 1 :=
  C5_undo_roundtrip (by decide) (by decide) (by decide)

/-- C6 (amended): `gameOver` is set by a move only when the post-move board has
no empty cell and no two adjacent tiles of equal value, and no move ever resets
it to false; undo, however, restores the pre-move snapshot and can reset
`gameOver` to false (see the counterexample). -/
theorem C6_gameOver_terminal :
    (∀ (e : GameEngine) (dir : Direction) (size : Int) (nid pick : Nat) (two : Bool),
      e.state.gameOver = true → (move e dir size nid pick two).1.state.gameOver = true) ∧
    (∀ (e : GameEngine) (dir : Direction) (size : Int) (nid pick : Nat) (two : Bool),
      (move e dir size nid pick two).1.state.gameOver = true →
        e.state.gameOver = true ∨
          (gridFull (buildGrid (move e dir size nid pick two).1.state.tiles) size ∧
           noAdjEq (buildGrid (move e dir size nid pick two).1.state.tiles) size)) :=
  ⟨fun _ _ _ _ _ _ h => move_gameOver_mono h,
   fun _ _ _ _ _ _ h => move_gameOver_terminal h⟩

/-- C6 counterexample: a move fills the board and sets `gameOver`, and the
following undo resets `gameOver` to false within the same game, contradicting
the claim that it is never reset. -/
theorem C6_counterexample :
    (handleMove exEngineAlmostOver .right 4 100 0 false).state.gameOver = true ∧
    (handleUndo (handleMove exEngineAlmostOver .right 4 100 0 false)).state.gameOver
      = false := by
  decide

/-- C6 witness: both parts of the amended statement at concrete inputs. -/
theorem C6_witness :
    (move exEngineOverAlready .up 4 0 0 true).1.state.gameOver = true ∧
    (exEngineAlmostOver.state.gameOver = true ∨
      (gridFull (buildGrid (move exEngineAlmostOver .right 4 100 0 false).1.state.tiles) 4 ∧
       noAdjEq (buildGrid (move exEngineAlmostOver .right 4 100 0 false).1.state.tiles) 4)) :=
  ⟨C6_gameOver_terminal.1 exEngineOverAlready .up 4 0 0 true (by decide),
   C6_gameOver_terminal.2 exEngineAlmostOver .right 4 100 0 false (by decide)⟩

/-- C7 (amended): during a move, `won` flips exactly when a merge step creates a
tile of value 2048 (per traversal step, the new `won` is the old one or-ed with
"this step merged to 2048"), and no move ever reverts `won`; undo, however, can
revert it (see the counterexample). -/
theorem C7_won_on_2048 :
    (∀ (size : Int) (dir : Direction) (ctx : MoveCtx) (row col : Int),
      (moveStep size dir ctx row col).won =
        (ctx.won ||
          match stepAction size dir ctx row col with
          | .mergeInto tile _ _ => decide (tile.value * 2 = 2048)
          | _ => false)) ∧
    (∀ (e : GameEngine) (dir : Direction) (size : Int) (nid pick : Nat) (two : Bool),
      e.state.won = true → (move e dir size nid pick two).1.state.won = true) :=
  ⟨moveStep_won, fun _ _ _ _ _ _ h => move_won_mono h⟩

/-- C7 counterexample: merging 1024+1024 sets `won`, and the following undo
resets `won` to false within the same game, contradicting the claim that `won`
never reverts. -/
theorem C7_counterexample :
    (handleMove exEngineAlmostWon .left 4 100 0 true).state.won = true ∧
    (handleUndo (handleMove exEngineAlmostWon .left 4 100 0 true)).state.won = false := by
  decide

/-- C7 witness: move preserves `won` on an engine that has already won. -/
theorem C7_witness :
    (move exEngineWon .left 4 50 0 true).1.state.won = true :=
  C7_won_on_2048.2 exEngineWon .left 4 50 0 true (by decide)

/-- C8: in every engine reachable from a fresh engine by any sequence of move,
spawn and undo operations, no two tiles of the current tile collection occupy
the same (row, col) cell. -/
theorem C8_no_shared_cell {size : Int} {e : GameEngine} (h : Reachable size e) :
    PosOK e.state.tiles :=
  (reachable_engOK h).1

/-- C8 witness: a freshly initialized engine is reachable and satisfies the
invariant. -/
theorem C8_witness : PosOK (initGame 4 0 0 0 true true).state.tiles :=
  C8_no_shared_cell (@Reachable.init 4 0 0 0 true true)

/-- C9: the farthest-position search loop terminates: from any on-board start
cell its result is independent of the recursion budget once the budget reaches
`size` (the value `findFarthestPosition` runs with), so the source's unbounded
`while (true)` loop reaches its exit condition. -/
theorem C9_farthest_search_terminates {dir : Direction} {g : Grid} {size : Int}
    {p : Int × Int} (hp : inB size p) :
    ∀ fuel, size.toNat ≤ fuel →
      ffpAux (getVector dir) g size fuel p = findFarthestPosition p (getVector dir) g size := by
  intro fuel hfuel
  rw [findFarthestPosition]
  exact ffpAux_fuel_stable dir g size size.toNat fuel p hp (ffpFuelNeed_le hp) hfuel

/-- C9 witness: the search from (0,3) leftwards over a concrete board gives the
same answer with any budget of at least 4. -/
theorem C9_witness :
    ffpAux (getVector .left) (buildGrid exStatePair.tiles) 4 9 (0, 3) =
      findFarthestPosition (0, 3) (getVector .left) (buildGrid exStatePair.tiles) 4 :=
  C9_farthest_search_terminates ⟨by decide, by decide, by decide, by decide⟩ 9 (by decide)

/-- C10: every merge step adds to the score exactly the value of the tile it
creates (twice the common value of the two merged tiles); over a whole `move`
call the score delta is the sum of the values of all merge-created tiles of
that call, and the combo count is their number, so a move with no merge leaves
the score unchanged. -/
theorem C10_score_is_merge_values :
    (∀ (size : Int) (dir : Direction) (ctx : MoveCtx) (row col : Int),
      (moveStep size dir ctx row col).score =
        ctx.score + (mergeLogStep size dir ctx row col).sum) ∧
    (∀ (e : GameEngine) (dir : Direction) (size : Int) (nid pick : Nat) (two : Bool),
      (move e dir size nid pick two).1.state.score =
        e.state.score +
          (moveLoopLog size dir (traversalCells dir size) (initCtx e.state)).sum ∧
      (move e dir size nid pick two).1.state.comboCount =
        (moveLoopLog size dir (traversalCells dir size) (initCtx e.state)).length) :=
  ⟨moveStep_score, fun e dir size nid pick two =>
    ⟨move_score_log e dir size nid pick two, move_combo_log e dir size nid pick two⟩⟩
